import Mathlib

/-
Verification of the helix inference scheduler and runner-coordination
protocol, together with the Postgres store accessors.

The store accessors (getSession, getJob) are embedded directly from the
Go source (PostgresStore.GetSession / PostgresStore.GetJob).  The
scheduler, pending queue, placement strategy and response multiplexer
are modelled from the specification, since only their tests, callers and
configuration appear in the source tree.
-/

namespace Helix

/-! ## Postgres store (embedded from PostgresStore.GetSession / GetJob) -/

/-- Result of scanning a single row from the database: a decoded value,
the sql.ErrNoRows sentinel, or some other database error. -/
inductive RowScan (α : Type) where
  | ok (a : α) : RowScan α
  | noRows : RowScan α
  | dbErr (msg : String) : RowScan α
deriving Repr, DecidableEq

/-- A session row, as selected by PostgresStore.GetSession. -/
structure Session where
  id : String
  name : String
  mode : String
  sessionType : String
  finetuneFile : String
  interactions : String
  owner : String
  ownerType : String
deriving Repr, DecidableEq

/-- A raw job row as selected by PostgresStore.GetJob, with the data
column still serialized. -/
structure JobRow where
  id : String
  created : Nat
  owner : String
  ownerType : String
  state : String
  status : String
  data : String
deriving Repr, DecidableEq

/-- A decoded job, as returned by PostgresStore.GetJob. -/
structure Job where
  id : String
  created : Nat
  owner : String
  ownerType : String
  state : String
  status : String
  data : String
deriving Repr, DecidableEq

/-- PostgresStore.GetSession: scan the row for the given id; sql.ErrNoRows
is reported as (nil, nil), any other scan error as (nil, err), and a
decoded row as (session, nil). -/
def getSession (db : String → RowScan Session) (sessionID : String) :
    Except String (Option Session) :=
  match db sessionID with
  | RowScan.ok s => Except.ok (some s)
  | RowScan.noRows => Except.ok none
  | RowScan.dbErr e => Except.error e

/-- PostgresStore.GetJob: scan the row for the given id; sql.ErrNoRows is
reported as (nil, nil), any other scan error as (nil, err); on success the
data column is unmarshalled (an unmarshal failure is returned as an error)
and the job is returned. -/
def getJob (db : String → RowScan JobRow)
    (unmarshal : String → Except String String) (queryID : String) :
    Except String (Option Job) :=
  match db queryID with
  | RowScan.noRows => Except.ok none
  | RowScan.dbErr e => Except.error e
  | RowScan.ok row =>
    match unmarshal row.data with
    | Except.error e => Except.error e
    | Except.ok jd =>
      Except.ok (some { id := row.id, created := row.created, owner := row.owner,
                        ownerType := row.ownerType, state := row.state,
                        status := row.status, data := jd })

/-! ## Response envelopes and the response multiplexer -/

/-- A runner response envelope, with the fields exercised by the tests:
correlation ids, an error string (empty means no error), a done flag for
streams, an optional final response content and an optional stream chunk
content. -/
structure RunnerLLMInferenceResponse where
  ownerID : String
  sessionID : String
  interactionID : String
  error : String
  done : Bool
  response : Option String
  streamResponse : Option String
deriving Repr, DecidableEq

/-- Terminal outcome of a streaming call. -/
inductive StreamEnd where
  | success : StreamEnd
  | failed (msg : String) : StreamEnd
deriving Repr, DecidableEq

/-- Modelled from the spec: the Response Multiplexer's non-streaming
consumption loop (the multiplexer implementation is not in the source
tree).  A non-empty error field terminates the call with that error; the
first final-response message completes the call; other messages are
skipped; if the sequence ends with no terminal message the call fails
with a timeout error. -/
def consumeNonStream : List RunnerLLMInferenceResponse → Except String String
  | [] => Except.error "timeout"
  | e :: rest =>
    if e.error ≠ "" then Except.error e.error
    else
      match e.response with
      | some r => Except.ok r
      | none => consumeNonStream rest

/-- Modelled from the spec: the Response Multiplexer's streaming
consumption loop (the multiplexer implementation is not in the source
tree).  It returns the chunks delivered to the caller in order together
with the terminal outcome: a non-empty error field terminates delivery
immediately with that error, irrespective of the done flag; a chunk with
done = true is delivered last and terminates the stream successfully;
if the sequence ends with no terminal message the stream fails with a
timeout error. -/
def consumeStream : List RunnerLLMInferenceResponse → List String × StreamEnd
  | [] => ([], StreamEnd.failed "timeout")
  | e :: rest =>
    if e.error ≠ "" then ([], StreamEnd.failed e.error)
    else
      let cs := match e.streamResponse with
        | some c => [c]
        | none => []
      if e.done then (cs, StreamEnd.success)
      else
        let r := consumeStream rest
        (cs ++ r.1, r.2)

/-- A well-formed stream chunk envelope carrying content c, marked done
when it is the terminal chunk of the stream. -/
def mkChunk (o se i c : String) (d : Bool) : RunnerLLMInferenceResponse :=
  { ownerID := o, sessionID := se, interactionID := i, error := "", done := d,
    response := none, streamResponse := some c }

/-! ## Scheduler data model

Modelled from the spec: the scheduler package itself is not in the
source tree (only its tests, its configuration in config.go and its
callers are), so the registry, queue, placement strategy and dispatcher
are modelled from the specification text. -/

/-- Modelled from the spec: a runner registry entry — identity, total
memory capacity, resident models with their last-used timestamps,
whether the runner can load non-resident models, last heartbeat
timestamp and a registration index used for deterministic tie-breaks. -/
structure RunnerState where
  id : String
  totalMemory : Nat
  models : List (String × Nat)
  canLoad : Bool
  lastHeartbeat : Nat
  registered : Nat
deriving Repr, DecidableEq

/-- Modelled from the spec: a runner report as ingested by update —
identity, capacity and resident-model snapshot. -/
structure RunnerReport where
  id : String
  totalMemory : Nat
  models : List (String × Nat)
  canLoad : Bool
deriving Repr, DecidableEq

/-- Modelled from the spec: an inference request — identities, target
model, memory footprint. -/
structure InferenceRequest where
  requestID : String
  ownerID : String
  sessionID : String
  interactionID : String
  model : String
  memoryRequired : Nat
deriving Repr, DecidableEq

/-- Modelled from the spec: a slot, the lease binding one runner to one
in-flight request; delivered records whether the runner has already
pulled the request. -/
structure Slot where
  runnerID : String
  request : InferenceRequest
  delivered : Bool
deriving Repr, DecidableEq

/-- Modelled from the spec: the lifecycle status of a request. -/
inductive ReqStatus where
  | queued : ReqStatus
  | dispatched : ReqStatus
  | completed : ReqStatus
  | failed (retriable : Bool) (msg : String) : ReqStatus
deriving Repr, DecidableEq

/-- Modelled from the spec: the outcome of one submit call. -/
inductive SubmitOutcome where
  | placedOn (runnerID : String) : SubmitOutcome
  | enqueued : SubmitOutcome
  | rejected : SubmitOutcome
deriving Repr, DecidableEq

/-- Modelled from the spec: a scheduling decision for the bounded
diagnostic log. -/
structure SchedulingDecision where
  requestID : String
  outcome : SubmitOutcome
  time : Nat
deriving Repr, DecidableEq

/-- Modelled from the spec: the dispatcher-owned shared state — registry
in registration order, FIFO pending queue, active slots, request
statuses, the bounded decision log, and the configured bounds
(queue capacity, runner TTL, model warm-retention TTL, decision-log
capacity). -/
structure SchedulerState where
  runners : List RunnerState
  queue : List InferenceRequest
  slots : List Slot
  statuses : List (String × ReqStatus)
  decisions : List SchedulingDecision
  queueCapacity : Nat
  runnerTTL : Nat
  modelTTL : Nat
  decisionCapacity : Nat
  regCounter : Nat
deriving Repr, DecidableEq

/-- Update the status of a request in the status table (insert if
absent, overwrite if present). -/
def setStatus : List (String × ReqStatus) → String → ReqStatus →
    List (String × ReqStatus)
  | [], rid, st => [(rid, st)]
  | (k, v) :: rest, rid, st =>
    if k = rid then (k, st) :: rest else (k, v) :: setStatus rest rid st

/-- Look up the status of a request. -/
def lookupStatus : List (String × ReqStatus) → String → Option ReqStatus
  | [], _ => none
  | (k, v) :: rest, rid => if k = rid then some v else lookupStatus rest rid

/-- Modelled from the spec: a runner's heartbeat has expired when its
age exceeds the runner liveness window. -/
def heartbeatExpired (ttl now : Nat) (r : RunnerState) : Bool :=
  decide (r.lastHeartbeat + ttl < now)

/-- Modelled from the spec: evictExpired(now) removes every runner whose
heartbeat age exceeds the runner liveness window, releases its slots and
fails the released requests with a retriable error (no silent
re-dispatch). -/
def evictExpired (now : Nat) (s : SchedulerState) : SchedulerState :=
  let isDead := fun (sl : Slot) =>
    (s.runners.filter (heartbeatExpired s.runnerTTL now)).any
      (fun r => r.id == sl.runnerID)
  let released := s.slots.filter isDead
  { s with
    runners := s.runners.filter (fun r => !(heartbeatExpired s.runnerTTL now r)),
    slots := s.slots.filter (fun sl => !(isDead sl)),
    statuses := released.foldl
      (fun m sl => setStatus m sl.request.requestID (ReqStatus.failed true "runner lost"))
      s.statuses }

/-- Modelled from the spec: a model is available on a runner when it is
resident and its warm-retention window has not lapsed, or the runner can
load it. -/
def modelAvailable (modelTTL now : Nat) (r : RunnerState) (m : String) : Bool :=
  r.models.any (fun p => p.1 == m && decide (now ≤ p.2 + modelTTL)) || r.canLoad

/-- Memory currently reserved on a runner by its active slots. -/
def usedMemory (s : SchedulerState) (rid : String) : Nat :=
  ((s.slots.filter (fun sl => sl.runnerID == rid)).map
    (fun sl => sl.request.memoryRequired)).sum

/-- Number of active slots currently held by a runner. -/
def runnerSlotCount (s : SchedulerState) (rid : String) : Nat :=
  s.slots.countP (fun sl => sl.runnerID == rid)

/-- Modelled from the spec: listEligible returns the runners with free
capacity covering the request's footprint whose target model is resident
and warm or loadable. -/
def listEligible (s : SchedulerState) (now : Nat) (req : InferenceRequest) :
    List RunnerState :=
  s.runners.filter (fun r =>
    decide (usedMemory s r.id + req.memoryRequired ≤ r.totalMemory) &&
    modelAvailable s.modelTTL now r req.model)

/-- A placement candidate: the facts about one eligible runner that the
strategy consults — identity, active-slot count and registration index. -/
structure Candidate where
  runnerID : String
  activeSlots : Nat
  registered : Nat
deriving Repr, DecidableEq

/-- The candidate view of one runner under the current state. -/
def mkCandidate (s : SchedulerState) (r : RunnerState) : Candidate :=
  { runnerID := r.id, activeSlots := runnerSlotCount s r.id,
    registered := r.registered }

/-- The candidate list the strategy is given: the eligible runners with
their load counts, in registration order. -/
def candidatesFor (s : SchedulerState) (now : Nat) (req : InferenceRequest) :
    List Candidate :=
  (listEligible s now req).map (mkCandidate s)

/-- Keep the better of two candidates under the max-spread order: fewer
active slots wins, ties broken by earlier registration, further ties by
the earlier (first) candidate. -/
def pickBetter (a b : Candidate) : Candidate :=
  if b.activeSlots < a.activeSlots ∨
      (b.activeSlots = a.activeSlots ∧ b.registered < a.registered)
  then b else a

/-- Modelled from the spec: the default max-spread choose function —
select the eligible candidate with the fewest active slots, ties broken
by earliest registration; none when no runner is eligible. -/
def chooseMaxSpread : List Candidate → Option Candidate
  | [] => none
  | c :: rest => some (rest.foldl pickBetter c)

/-- The dispatcher's placement choice for a request under a state. -/
def dispatcherChoose (s : SchedulerState) (now : Nat) (req : InferenceRequest) :
    Option Candidate :=
  chooseMaxSpread (candidatesFor s now req)

/-- The state-passing wrapper around the placement strategy as the
dispatcher invokes it: the strategy only reads the state. -/
def chooseInState (s : SchedulerState) (now : Nat) (req : InferenceRequest) :
    Option Candidate × SchedulerState :=
  (dispatcherChoose s now req, s)

/-- Modelled from the spec: append a decision to the bounded diagnostic
log, discarding the oldest entries beyond the configured capacity. -/
def recordDecision (s : SchedulerState) (d : SchedulingDecision) : SchedulerState :=
  let ds := s.decisions ++ [d]
  { s with decisions :=
      if s.decisionCapacity < ds.length then ds.drop (ds.length - s.decisionCapacity)
      else ds }

/-- Create the slot binding a chosen runner to a request. -/
def mkSlot (rid : String) (req : InferenceRequest) : Slot :=
  { runnerID := rid, request := req, delivered := false }

/-- Modelled from the spec: submit(request) — evict expired runners,
compute the eligible runners and ask the strategy for a placement; on a
choice, create the slot atomically in the same critical section and mark
the request dispatched; otherwise enqueue, or reject immediately with a
backpressure error when the queue is at capacity.  Every outcome is
recorded in the decision log. -/
def submit (now : Nat) (req : InferenceRequest) (s : SchedulerState) :
    SchedulerState × SubmitOutcome :=
  let s1 := evictExpired now s
  match dispatcherChoose s1 now req with
  | some c =>
    let s2 := { s1 with
      slots := s1.slots ++ [mkSlot c.runnerID req],
      statuses := setStatus s1.statuses req.requestID ReqStatus.dispatched }
    (recordDecision s2
      { requestID := req.requestID, outcome := SubmitOutcome.placedOn c.runnerID,
        time := now },
     SubmitOutcome.placedOn c.runnerID)
  | none =>
    if s1.queue.length < s1.queueCapacity then
      let s2 := { s1 with
        queue := s1.queue ++ [req],
        statuses := setStatus s1.statuses req.requestID ReqStatus.queued }
      (recordDecision s2
        { requestID := req.requestID, outcome := SubmitOutcome.enqueued, time := now },
       SubmitOutcome.enqueued)
    else
      (recordDecision s1
        { requestID := req.requestID, outcome := SubmitOutcome.rejected, time := now },
       SubmitOutcome.rejected)

/-- Submit a sequence of requests in order, collecting the outcomes. -/
def submitSeq (now : Nat) : List InferenceRequest → SchedulerState →
    SchedulerState × List SubmitOutcome
  | [], s => (s, [])
  | r :: rest, s =>
    let p := submit now r s
    let q := submitSeq now rest p.1
    (q.1, p.2 :: q.2)

/-- Modelled from the spec: whenever capacity appears, the dispatcher
re-attempts placement for the head of the queue, repeatedly while the
strategy finds a runner for the head (strict FIFO, no skip-ahead).
Returns the new state and the request ids placed, in placement order.
The fuel bounds the number of iterations; the queue length suffices. -/
def drainQueue (now : Nat) : Nat → SchedulerState → SchedulerState × List String
  | 0, s => (s, [])
  | fuel + 1, s =>
    match s.queue with
    | [] => (s, [])
    | req :: rest =>
      match dispatcherChoose s now req with
      | none => (s, [])
      | some c =>
        let s2 := recordDecision
          { s with
            queue := rest,
            slots := s.slots ++ [mkSlot c.runnerID req],
            statuses := setStatus s.statuses req.requestID ReqStatus.dispatched }
          { requestID := req.requestID, outcome := SubmitOutcome.placedOn c.runnerID,
            time := now }
        let r := drainQueue now fuel s2
        (r.1, req.requestID :: r.2)

/-- Modelled from the spec: upsert a runner's capacity/model snapshot
and refresh its heartbeat timestamp — idempotent, last-write-wins; a new
runner is appended with the next registration index. -/
def upsertRunner (now : Nat) (rep : RunnerReport) (s : SchedulerState) :
    SchedulerState :=
  if s.runners.any (fun r => r.id == rep.id) then
    { s with runners := s.runners.map (fun r =>
        if r.id == rep.id then
          { r with totalMemory := rep.totalMemory, models := rep.models,
                   canLoad := rep.canLoad, lastHeartbeat := now }
        else r) }
  else
    let fresh : RunnerState :=
      { id := rep.id, totalMemory := rep.totalMemory, models := rep.models,
        canLoad := rep.canLoad, lastHeartbeat := now, registered := s.regCounter }
    { s with
      runners := s.runners ++ [fresh],
      regCounter := s.regCounter + 1 }

/-- Modelled from the spec: runner report ingestion — upsert the runner,
then re-attempt placement from the head of the queue. -/
def updateRunner (now : Nat) (rep : RunnerReport) (s : SchedulerState) :
    SchedulerState × List String :=
  let s1 := upsertRunner now rep s
  drainQueue now s1.queue.length s1

/-- Modelled from the spec: a request reaches terminal completion — its
slot is destroyed and its status becomes completed. -/
def completeRequest (rid : String) (s : SchedulerState) : SchedulerState :=
  { s with
    slots := s.slots.filter (fun sl => !(sl.request.requestID == rid)),
    statuses := setStatus s.statuses rid ReqStatus.completed }

/-- Does a pull filter accept a request?  An empty filter accepts every
request; otherwise the filter names the required model. -/
def filterAccepts (fil : String) (req : InferenceRequest) : Bool :=
  fil == "" || fil == req.model

/-- Mark the first undelivered slot of the given runner that the filter
accepts as delivered and return its request. -/
def markFirstUndelivered : List Slot → String → String →
    List Slot × Option InferenceRequest
  | [], _, _ => ([], none)
  | sl :: rest, rID, fil =>
    if sl.runnerID = rID ∧ sl.delivered = false ∧ filterAccepts fil sl.request then
      ({ sl with delivered := true } :: rest, some sl.request)
    else
      let r := markFirstUndelivered rest rID fil
      (sl :: r.1, r.2)

/-- Modelled from the spec: pullNext(runnerID, filter) — return at most
one request placed on this runner and not yet handed over, marking it
delivered so it is returned exactly once; side-effect-free when no work
exists. -/
def pullNext (rID fil : String) (s : SchedulerState) :
    SchedulerState × Option InferenceRequest :=
  let r := markFirstUndelivered s.slots rID fil
  ({ s with slots := r.1 }, r.2)

/-! ## Event traces over the scheduler -/

/-- Modelled from the spec: the events that mutate the dispatcher-owned
state, serialized by the single coarse-grained scheduler lock. -/
inductive SchedEvent where
  | submitEv (now : Nat) (req : InferenceRequest) : SchedEvent
  | updateEv (now : Nat) (rep : RunnerReport) : SchedEvent
  | evictEv (now : Nat) : SchedEvent
  | completeEv (now : Nat) (requestID : String) : SchedEvent
  | pullEv (runnerID : String) (fil : String) : SchedEvent
deriving Repr, DecidableEq

/-- The observable output of one scheduler step: the next state, the
request ids for which a slot was created, and the request ids handed to
a pulling runner. -/
structure StepOut where
  state : SchedulerState
  created : List String
  pulled : List String
deriving Repr, DecidableEq

/-- One serialized scheduler step. -/
def stepEv (s : SchedulerState) : SchedEvent → StepOut
  | SchedEvent.submitEv now req =>
    let p := submit now req s
    { state := p.1,
      created := match p.2 with
        | SubmitOutcome.placedOn _ => [req.requestID]
        | _ => [],
      pulled := [] }
  | SchedEvent.updateEv now rep =>
    let p := updateRunner now rep s
    { state := p.1, created := p.2, pulled := [] }
  | SchedEvent.evictEv now =>
    let s1 := evictExpired now s
    let p := drainQueue now s1.queue.length s1
    { state := p.1, created := p.2, pulled := [] }
  | SchedEvent.completeEv now rid =>
    let s1 := completeRequest rid s
    let p := drainQueue now s1.queue.length s1
    { state := p.1, created := p.2, pulled := [] }
  | SchedEvent.pullEv rID fil =>
    let p := pullNext rID fil s
    { state := p.1, created := [],
      pulled := match p.2 with
        | some rq => [rq.requestID]
        | none => [] }

/-- Occurrences of a request identity in a list of ids. -/
def idCount (rid : String) (l : List String) : Nat :=
  l.countP (fun x => x == rid)

/-- Number of submit events for a given request identity in one event. -/
def eventSubmits (rid : String) : SchedEvent → Nat
  | SchedEvent.submitEv _ req => if req.requestID = rid then 1 else 0
  | _ => 0

/-- Number of submit events for a given request identity in a trace. -/
def traceSubmits (rid : String) : List SchedEvent → Nat
  | [] => 0
  | e :: rest => eventSubmits rid e + traceSubmits rid rest

/-- Number of successful slot creations for a given request identity
along a trace run from a state. -/
def traceCreations (rid : String) : SchedulerState → List SchedEvent → Nat
  | _, [] => 0
  | s, e :: rest =>
    idCount rid (stepEv s e).created + traceCreations rid (stepEv s e).state rest

/-- Number of times a given request identity is handed to a pulling
runner along a trace run from a state. -/
def tracePulls (rid : String) : SchedulerState → List SchedEvent → Nat
  | _, [] => 0
  | s, e :: rest =>
    idCount rid (stepEv s e).pulled + tracePulls rid (stepEv s e).state rest

/-- Occurrences of a request identity in the pending queue. -/
def qCount (s : SchedulerState) (rid : String) : Nat :=
  s.queue.countP (fun r => r.requestID == rid)

/-- Occurrences of a request identity among the undelivered slots of a
slot list. -/
def undelCountL (slots : List Slot) (rid : String) : Nat :=
  slots.countP (fun sl => sl.request.requestID == rid && !sl.delivered)

/-- Occurrences of a request identity among undelivered slots. -/
def undelCount (s : SchedulerState) (rid : String) : Nat :=
  undelCountL s.slots rid

/-- The max-spread preference order: fewer active slots first, ties
broken by earliest registration. -/
def spreadLE (a b : Candidate) : Prop :=
  a.activeSlots ≤ b.activeSlots ∧
    (a.activeSlots = b.activeSlots → a.registered ≤ b.registered)

/-- The outcomes a runner-less scheduler produces for n submissions when
the queue currently holds len entries and tops out at cap: enqueue while
below capacity, reject afterwards. -/
def expectedOutcomes (len cap n : Nat) : List SubmitOutcome :=
  match n with
  | 0 => []
  | n + 1 =>
    if len < cap then
      SubmitOutcome.enqueued :: expectedOutcomes (len + 1) cap n
    else
      SubmitOutcome.rejected :: expectedOutcomes len cap n

/-! ## Concrete example fixtures -/

/-- A concrete inference request used in example scenarios. -/
def exampleRequest (n : String) : InferenceRequest :=
  { requestID := n, ownerID := "owner1", sessionID := "session1",
    interactionID := "interaction1", model := "llama3", memoryRequired := 100 }

/-- An empty scheduler with queue capacity 2. -/
def exampleEmptyState : SchedulerState :=
  { runners := [], queue := [], slots := [], statuses := [], decisions := [],
    queueCapacity := 2, runnerTTL := 30, modelTTL := 10, decisionCapacity := 10,
    regCounter := 0 }

/-- A concrete runner report. -/
def exampleReport : RunnerReport :=
  { id := "R1", totalMemory := 1000, models := [], canLoad := true }

/-- An empty scheduler with two requests already queued. -/
def exampleQueuedState : SchedulerState :=
  { exampleEmptyState with queue := [exampleRequest "a", exampleRequest "b"] }

/-- Runner R1, registered first, holding no active slots. -/
def exampleRunnerOne : RunnerState :=
  { id := "R1", totalMemory := 1000, models := [], canLoad := true,
    lastHeartbeat := 0, registered := 0 }

/-- Runner R2, registered second, holding three active slots. -/
def exampleRunnerTwo : RunnerState :=
  { id := "R2", totalMemory := 1000, models := [], canLoad := true,
    lastHeartbeat := 0, registered := 1 }

/-- A scheduler with R1 (0 active slots) and R2 (3 active slots), both
eligible for the next request. -/
def exampleSpreadState : SchedulerState :=
  { exampleEmptyState with
    runners := [exampleRunnerOne, exampleRunnerTwo],
    slots := [mkSlot "R2" (exampleRequest "x"), mkSlot "R2" (exampleRequest "y"),
              mkSlot "R2" (exampleRequest "z")] }

/-- The spread example with an unrelated queue and decision log: the
placement inputs (eligible runners and load counts) are identical to
those of exampleSpreadState. -/
def exampleSpreadStateNoise : SchedulerState :=
  { exampleSpreadState with
    queue := [exampleRequest "noise"],
    decisions := [{ requestID := "old", outcome := SubmitOutcome.rejected, time := 0 }] }

/-- A scheduler where runner R1 holds one active slot for request "a"
and has not heartbeated since time 0. -/
def exampleEvictState : SchedulerState :=
  { exampleEmptyState with
    runners := [exampleRunnerOne],
    slots := [mkSlot "R1" (exampleRequest "a")] }

/-- A concrete trace: runner R1 registers, request "a" is submitted
(and placed), and R1 pulls it. -/
def witnessTrace : List SchedEvent :=
  [SchedEvent.updateEv 0 exampleReport,
   SchedEvent.submitEv 0 (exampleRequest "a"),
   SchedEvent.pullEv "R1" ""]

/-- Database stub used by the store witness: row "a" is absent, every
other row fails with a concrete error. -/
def witnessSessionDB (k : String) : RowScan Session :=
  if k = "a" then RowScan.noRows else RowScan.dbErr "connection reset"

/-- Job database stub used by the store witness. -/
def witnessJobDB (k : String) : RowScan JobRow :=
  if k = "j" then RowScan.noRows else RowScan.dbErr "disk failure"

/-- The final-response envelope used by the multiplexer witnesses. -/
def witnessFinal : RunnerLLMInferenceResponse :=
  { ownerID := "owner1", sessionID := "session1", interactionID := "interaction1",
    error := "", done := false, response := some "Hello, world!",
    streamResponse := none }

/-- The error envelope used by the C3 witness: it carries prior-chunk
interleaving and a done flag that must be ignored. -/
def witnessErrorEnvelope : RunnerLLMInferenceResponse :=
  { ownerID := "owner1", sessionID := "session1", interactionID := "interaction1",
    error := "too many tokens", done := true, response := none,
    streamResponse := some "ignored" }

/-! ## Theorems -/

/-- C10: for every identifier with no matching stored row, GetSession
and GetJob report absence as (nil, nil) rather than as an error, while
any other database failure is returned as a non-nil error. -/
theorem store_absent_row_is_not_an_error
    (dbS : String → RowScan Session) (dbJ : String → RowScan JobRow)
    (um : String → Except String String)
    (ia fa ja fj es ej : String)
    (hS : dbS ia = RowScan.noRows) (hSf : dbS fa = RowScan.dbErr es)
    (hJ : dbJ ja = RowScan.noRows) (hJf : dbJ fj = RowScan.dbErr ej) :
    getSession dbS ia = Except.ok none ∧
    getSession dbS fa = Except.error es ∧
    getJob dbJ um ja = Except.ok none ∧
    getJob dbJ um fj = Except.error ej := by
  refine ⟨?_, ?_, ?_, ?_⟩ <;> simp [getSession, getJob, hS, hSf, hJ, hJf]

/-- Witness for C10 at concrete databases. -/
theorem store_absent_row_is_not_an_error_witness :
    getSession witnessSessionDB "a" = Except.ok none ∧
    getSession witnessSessionDB "b" = Except.error "connection reset" ∧
    getJob witnessJobDB Except.ok "j" = Except.ok none ∧
    getJob witnessJobDB Except.ok "k" = Except.error "disk failure" :=
  store_absent_row_is_not_an_error witnessSessionDB witnessJobDB Except.ok
    "a" "b" "j" "k" "connection reset" "disk failure"
    (by decide) (by decide) (by decide) (by decide)

/-- C2: when the runner publishes a finite sequence of chunks whose last
chunk is marked done, the caller's stream yields exactly those chunks in
publish order, ends after the done chunk (later messages are never
consumed) and terminates successfully; in particular for the chunks
"One,", "Two,", "Three.". -/
theorem streaming_chunks_in_publish_order (o se i : String) (body : List String)
    (last : String) (rest : List RunnerLLMInferenceResponse) :
    consumeStream (body.map (fun c => mkChunk o se i c false) ++
        mkChunk o se i last true :: rest) = (body ++ [last], StreamEnd.success) ∧
    consumeStream [mkChunk o se i "One," false, mkChunk o se i "Two," false,
        mkChunk o se i "Three." true] =
      (["One,", "Two,", "Three."], StreamEnd.success) := by
  constructor
  · induction body with
    | nil => simp [consumeStream, mkChunk]
    | cons c cs ih =>
      simp only [mkChunk] at ih
      simp [consumeStream, mkChunk, ih]
  · simp [consumeStream, mkChunk]

/-- C9: for a non-streaming call, the first final-response envelope
completes the call with that response's content; whatever arrives after
it is irrelevant to the returned result. -/
theorem nonstreaming_first_final_completes (pre : List RunnerLLMInferenceResponse)
    (hpre : ∀ e ∈ pre, e.error = "" ∧ e.response = none)
    (fr : RunnerLLMInferenceResponse) (hfe : fr.error = "")
    (r : String) (hfr : fr.response = some r)
    (rest : List RunnerLLMInferenceResponse) :
    consumeNonStream (pre ++ fr :: rest) = Except.ok r := by
  induction pre with
  | nil => simp [consumeNonStream, hfe, hfr]
  | cons e es ih =>
    have he := hpre e (by simp)
    have ihr := ih (fun x hx => hpre x (by simp [hx]))
    simpa [consumeNonStream, he.1, he.2] using ihr

/-- Witness for C9: one skipped chunk envelope, then the final response,
then a trailing message that is ignored. -/
theorem nonstreaming_first_final_completes_witness :
    consumeNonStream [mkChunk "owner1" "session1" "interaction1" "One," false,
      witnessFinal, witnessFinal] = Except.ok "Hello, world!" :=
  nonstreaming_first_final_completes
    [mkChunk "owner1" "session1" "interaction1" "One," false]
    (by decide) witnessFinal (by decide) "Hello, world!" (by decide) [witnessFinal]

/-- C3: an envelope with a non-empty error field, consumed at any point
after prior valid chunks, fails the call (streaming or not) with that
error text, irrespective of its done flag, and no further chunks are
delivered: the streaming call delivers only the chunks that preceded the
error. -/
theorem error_envelope_terminates_call (pre : List RunnerLLMInferenceResponse)
    (hpre : ∀ e ∈ pre, e.error = "" ∧ e.done = false ∧ e.response = none)
    (er : RunnerLLMInferenceResponse) (herr : er.error ≠ "")
    (rest : List RunnerLLMInferenceResponse) :
    consumeNonStream (pre ++ er :: rest) = Except.error er.error ∧
    consumeStream (pre ++ er :: rest) =
      (pre.filterMap (fun e => e.streamResponse), StreamEnd.failed er.error) := by
  induction pre with
  | nil => simp [consumeNonStream, consumeStream, herr]
  | cons e es ih =>
    have he := hpre e (by simp)
    have ihr := ih (fun x hx => hpre x (by simp [hx]))
    refine ⟨?_, ?_⟩
    · simpa [consumeNonStream, he.1, he.2.2] using ihr.1
    · have hs := ihr.2
      rcases hsr : e.streamResponse with _ | c <;>
        simp [consumeStream, he.1, he.2.1, hsr, hs]

/-- Witness for C3: a valid chunk, then the "too many tokens" error with
done set, then a further chunk that is never delivered. -/
theorem error_envelope_terminates_call_witness :
    consumeNonStream [mkChunk "owner1" "session1" "interaction1" "One," false,
        witnessErrorEnvelope,
        mkChunk "owner1" "session1" "interaction1" "Two," false] =
      Except.error "too many tokens" ∧
    consumeStream [mkChunk "owner1" "session1" "interaction1" "One," false,
        witnessErrorEnvelope,
        mkChunk "owner1" "session1" "interaction1" "Two," false] =
      (["One,"], StreamEnd.failed "too many tokens") :=
  error_envelope_terminates_call
    [mkChunk "owner1" "session1" "interaction1" "One," false]
    (by decide) witnessErrorEnvelope (by decide)
    [mkChunk "owner1" "session1" "interaction1" "Two," false]

/-! ### Max-spread placement -/

/-- spreadLE is reflexive. -/
lemma spreadLE_refl (a : Candidate) : spreadLE a a :=
  ⟨le_refl _, fun _ => le_refl _⟩

/-- spreadLE is transitive. -/
lemma spreadLE_trans {a b c : Candidate} (hab : spreadLE a b) (hbc : spreadLE b c) :
    spreadLE a c := by
  obtain ⟨h1, h2⟩ := hab
  obtain ⟨h3, h4⟩ := hbc
  refine ⟨le_trans h1 h3, fun hac => ?_⟩
  have hab2 : a.activeSlots = b.activeSlots := by omega
  have hbc2 : b.activeSlots = c.activeSlots := by omega
  exact le_trans (h2 hab2) (h4 hbc2)

/-- The kept candidate is at most the first argument. -/
lemma pickBetter_le_left (a b : Candidate) : spreadLE (pickBetter a b) a := by
  unfold pickBetter
  split
  · rename_i h
    rcases h with h | ⟨h1, h2⟩
    · exact ⟨le_of_lt h, fun he => by omega⟩
    · exact ⟨le_of_eq h1, fun _ => le_of_lt h2⟩
  · exact spreadLE_refl a

/-- The kept candidate is at most the second argument. -/
lemma pickBetter_le_right (a b : Candidate) : spreadLE (pickBetter a b) b := by
  unfold pickBetter
  split
  · exact spreadLE_refl b
  · rename_i h
    push_neg at h
    exact ⟨h.1, fun he => h.2 he.symm⟩

/-- The fold over pickBetter returns one of the candidates. -/
lemma foldl_pickBetter_mem : ∀ (l : List Candidate) (c : Candidate),
    l.foldl pickBetter c ∈ c :: l := by
  intro l
  induction l with
  | nil => intro c; simp
  | cons b bs ih =>
    intro c
    have h := ih (pickBetter c b)
    have hpb : pickBetter c b = c ∨ pickBetter c b = b := by
      unfold pickBetter; split
      · exact Or.inr rfl
      · exact Or.inl rfl
    simp only [List.foldl_cons]
    rcases List.mem_cons.mp h with h1 | h1
    · rw [h1]
      rcases hpb with h2 | h2 <;> rw [h2] <;> simp
    · exact List.mem_cons.mpr (Or.inr (List.mem_cons.mpr (Or.inr h1)))

/-- The fold over pickBetter is minimal among all candidates. -/
lemma foldl_pickBetter_min : ∀ (l : List Candidate) (c : Candidate),
    ∀ d ∈ c :: l, spreadLE (l.foldl pickBetter c) d := by
  intro l
  induction l with
  | nil =>
    intro c d hd
    simp at hd
    rw [hd]
    exact spreadLE_refl c
  | cons b bs ih =>
    intro c d hd
    simp only [List.foldl_cons]
    have hhead : spreadLE (bs.foldl pickBetter (pickBetter c b)) (pickBetter c b) :=
      ih (pickBetter c b) (pickBetter c b) (List.mem_cons_self _ _)
    rcases List.mem_cons.mp hd with h1 | h1
    · subst h1
      exact spreadLE_trans hhead (pickBetter_le_left d b)
    · rcases List.mem_cons.mp h1 with h2 | h2
      · subst h2
        exact spreadLE_trans hhead (pickBetter_le_right c d)
      · exact ih (pickBetter c b) d (List.mem_cons.mpr (Or.inr h2))

/-- chooseMaxSpread on a non-empty candidate list returns a candidate
that is minimal under the max-spread order. -/
lemma chooseMaxSpread_min (cands : List Candidate) (h : cands ≠ []) :
    ∃ c, chooseMaxSpread cands = some c ∧ c ∈ cands ∧
      ∀ d ∈ cands, spreadLE c d := by
  match cands, h with
  | a :: l, _ =>
    exact ⟨l.foldl pickBetter a, rfl, foldl_pickBetter_mem l a,
      foldl_pickBetter_min l a⟩

/-- C6: whenever the eligible-runner set is non-empty, the default
max-spread choose returns an eligible candidate with the fewest active
slots, ties broken by earliest registration; in particular with R1
holding 0 active slots and R2 holding 3, both eligible, the request is
placed on R1. -/
theorem max_spread_picks_least_loaded (s : SchedulerState) (now : Nat)
    (req : InferenceRequest) (h : listEligible s now req ≠ []) :
    (∃ c, dispatcherChoose s now req = some c ∧ c ∈ candidatesFor s now req ∧
      ∀ d ∈ candidatesFor s now req, spreadLE c d) ∧
    dispatcherChoose exampleSpreadState 0 (exampleRequest "q") =
      some { runnerID := "R1", activeSlots := 0, registered := 0 } := by
  constructor
  · have hc : candidatesFor s now req ≠ [] := by
      unfold candidatesFor
      simpa using h
    exact chooseMaxSpread_min _ hc
  · rfl

/-- Witness for C6 at the concrete R1/R2 state. -/
theorem max_spread_picks_least_loaded_witness :
    (∃ c, dispatcherChoose exampleSpreadState 0 (exampleRequest "q") = some c ∧
      c ∈ candidatesFor exampleSpreadState 0 (exampleRequest "q") ∧
      ∀ d ∈ candidatesFor exampleSpreadState 0 (exampleRequest "q"), spreadLE c d) ∧
    dispatcherChoose exampleSpreadState 0 (exampleRequest "q") =
      some { runnerID := "R1", activeSlots := 0, registered := 0 } :=
  max_spread_picks_least_loaded exampleSpreadState 0 (exampleRequest "q")
    (by decide)

/-- C7: the placement strategy is a pure, deterministic function of the
eligible-runner set with its load counts: equal candidate inputs give
equal choices, and invoking the strategy leaves the scheduler state
untouched. -/
theorem choose_is_pure_and_deterministic (s1 s2 : SchedulerState) (n1 n2 : Nat)
    (q1 q2 : InferenceRequest)
    (h : candidatesFor s1 n1 q1 = candidatesFor s2 n2 q2) :
    dispatcherChoose s1 n1 q1 = dispatcherChoose s2 n2 q2 ∧
    chooseInState s1 n1 q1 = (dispatcherChoose s1 n1 q1, s1) :=
  ⟨by unfold dispatcherChoose; rw [h], rfl⟩

/-- Witness for C7: two states that differ in queue and decision log but
agree on the eligible candidates choose identically, without mutating
the state. -/
theorem choose_is_pure_and_deterministic_witness :
    dispatcherChoose exampleSpreadState 0 (exampleRequest "q") =
      dispatcherChoose exampleSpreadStateNoise 0 (exampleRequest "q") ∧
    chooseInState exampleSpreadState 0 (exampleRequest "q") =
      (dispatcherChoose exampleSpreadState 0 (exampleRequest "q"),
       exampleSpreadState) :=
  choose_is_pure_and_deterministic exampleSpreadState exampleSpreadStateNoise 0 0
    (exampleRequest "q") (exampleRequest "q") (by decide)

/-! ### Eviction cascade -/

/-- Setting a status makes it visible under the same key. -/
lemma lookupStatus_setStatus_self (m : List (String × ReqStatus)) (rid : String)
    (st : ReqStatus) : lookupStatus (setStatus m rid st) rid = some st := by
  induction m with
  | nil => simp [setStatus, lookupStatus]
  | cons p rest ih =>
    obtain ⟨k, v⟩ := p
    by_cases hk : k = rid <;> simp [setStatus, lookupStatus, hk, ih]

/-- Setting a status leaves other keys untouched. -/
lemma lookupStatus_setStatus_other (m : List (String × ReqStatus)) (rid k : String)
    (st : ReqStatus) (h : k ≠ rid) :
    lookupStatus (setStatus m rid st) k = lookupStatus m k := by
  induction m with
  | nil =>
    have hk : ¬ rid = k := fun he => h he.symm
    simp [setStatus, lookupStatus, hk]
  | cons p rest ih =>
    obtain ⟨k1, v⟩ := p
    by_cases h1 : k1 = rid
    · subst h1
      have hk : ¬ k1 = k := fun he => h he.symm
      simp [setStatus, lookupStatus, hk]
    · by_cases h2 : k1 = k
      · simp [setStatus, lookupStatus, h1, h2, h]
      · simp [setStatus, lookupStatus, h1, h2, ih]

/-- Folding status writes over slots whose requests all differ from rid
does not affect rid's status. -/
lemma lookup_foldl_setStatus_notmem (l : List Slot) (m : List (String × ReqStatus))
    (rid : String) (v : ReqStatus)
    (h : ∀ sl ∈ l, sl.request.requestID ≠ rid) :
    lookupStatus (l.foldl (fun acc sl => setStatus acc sl.request.requestID v) m) rid
      = lookupStatus m rid := by
  induction l generalizing m with
  | nil => rfl
  | cons sl rest ih =>
    have hhd : sl.request.requestID ≠ rid := h sl (by simp)
    have := ih (setStatus m sl.request.requestID v) (fun x hx => h x (by simp [hx]))
    simpa [lookupStatus_setStatus_other m sl.request.requestID rid v
      (fun he => hhd he.symm)] using this

/-- Folding status writes over slots sets rid's status to the written
value when some slot in the list carries request rid. -/
lemma lookup_foldl_setStatus_mem (l : List Slot) (m : List (String × ReqStatus))
    (rid : String) (v : ReqStatus)
    (h : ∃ sl ∈ l, sl.request.requestID = rid) :
    lookupStatus (l.foldl (fun acc sl => setStatus acc sl.request.requestID v) m) rid
      = some v := by
  induction l generalizing m with
  | nil => simp at h
  | cons sl rest ih =>
    by_cases hrest : ∃ x ∈ rest, x.request.requestID = rid
    · simpa using ih (setStatus m sl.request.requestID v) hrest
    · push_neg at hrest
      obtain ⟨sl0, hsl0, hid⟩ := h
      rcases List.mem_cons.mp hsl0 with h1 | h1
      · subst h1
        rw [List.foldl_cons,
          lookup_foldl_setStatus_notmem rest _ rid v hrest, hid,
          lookupStatus_setStatus_self]
      · exact absurd hid (hrest sl0 h1)

/-- C8: a runner holding an active slot whose heartbeat age exceeds the
runner liveness window is removed from the registry by evictExpired, its
slot is released, and the slot's request transitions to failed with a
retriable error. -/
theorem runner_eviction_cascade (now : Nat) (s : SchedulerState)
    (r : RunnerState) (sl : Slot)
    (hr : r ∈ s.runners) (hsl : sl ∈ s.slots) (hown : sl.runnerID = r.id)
    (hexp : r.lastHeartbeat + s.runnerTTL < now) :
    r ∉ (evictExpired now s).runners ∧
    sl ∉ (evictExpired now s).slots ∧
    lookupStatus (evictExpired now s).statuses sl.request.requestID =
      some (ReqStatus.failed true "runner lost") := by
  have hexpb : heartbeatExpired s.runnerTTL now r = true := by
    simp [heartbeatExpired, hexp]
  have hdead : (s.runners.filter (heartbeatExpired s.runnerTTL now)).any
      (fun r2 => r2.id == sl.runnerID) = true := by
    rw [List.any_eq_true]
    exact ⟨r, List.mem_filter.mpr ⟨hr, hexpb⟩, by simp [hown]⟩
  refine ⟨?_, ?_, ?_⟩
  · intro hmem
    have h2 := (List.mem_filter.mp hmem).2
    simp [hexpb] at h2
  · intro hmem
    have h2 := (List.mem_filter.mp hmem).2
    simp [hdead] at h2
  · have hrel : sl ∈ s.slots.filter (fun sl2 =>
        (s.runners.filter (heartbeatExpired s.runnerTTL now)).any
          (fun r2 => r2.id == sl2.runnerID)) :=
      List.mem_filter.mpr ⟨hsl, hdead⟩
    exact lookup_foldl_setStatus_mem _ s.statuses sl.request.requestID
      (ReqStatus.failed true "runner lost") ⟨sl, hrel, rfl⟩

/-- Witness for C8: R1 heartbeated at 0 with TTL 30, evicted at time
100, releasing its slot and failing request "a". -/
theorem runner_eviction_cascade_witness :
    exampleRunnerOne ∉ (evictExpired 100 exampleEvictState).runners ∧
    mkSlot "R1" (exampleRequest "a") ∉ (evictExpired 100 exampleEvictState).slots ∧
    lookupStatus (evictExpired 100 exampleEvictState).statuses "a" =
      some (ReqStatus.failed true "runner lost") :=
  runner_eviction_cascade 100 exampleEvictState exampleRunnerOne
    (mkSlot "R1" (exampleRequest "a"))
    (by decide) (by decide) rfl (by decide)

/-! ### Queue bound and backpressure -/

/-- Eviction does not touch the queue. -/
@[simp] lemma evictExpired_queue (now : Nat) (s : SchedulerState) :
    (evictExpired now s).queue = s.queue := rfl

/-- Eviction does not touch the queue capacity. -/
@[simp] lemma evictExpired_queueCapacity (now : Nat) (s : SchedulerState) :
    (evictExpired now s).queueCapacity = s.queueCapacity := rfl

/-- Recording a decision does not touch the queue. -/
@[simp] lemma recordDecision_queue (s : SchedulerState) (d : SchedulingDecision) :
    (recordDecision s d).queue = s.queue := rfl

/-- Recording a decision does not touch the registry. -/
@[simp] lemma recordDecision_runners (s : SchedulerState) (d : SchedulingDecision) :
    (recordDecision s d).runners = s.runners := rfl

/-- Recording a decision does not touch the slots. -/
@[simp] lemma recordDecision_slots (s : SchedulerState) (d : SchedulingDecision) :
    (recordDecision s d).slots = s.slots := rfl

/-- Recording a decision does not touch the statuses. -/
@[simp] lemma recordDecision_statuses (s : SchedulerState) (d : SchedulingDecision) :
    (recordDecision s d).statuses = s.statuses := rfl

/-- Recording a decision does not touch the queue capacity. -/
@[simp] lemma recordDecision_queueCapacity (s : SchedulerState)
    (d : SchedulingDecision) : (recordDecision s d).queueCapacity = s.queueCapacity :=
  rfl

/-- With no registered runners nothing is eligible, so choose finds no
placement. -/
lemma dispatcherChoose_no_runners (s : SchedulerState) (now : Nat)
    (req : InferenceRequest) (h : s.runners = []) :
    dispatcherChoose s now req = none := by
  simp [dispatcherChoose, candidatesFor, listEligible, h, chooseMaxSpread]

/-- Eviction never adds runners: an empty registry stays empty. -/
lemma evictExpired_runners_nil (now : Nat) (s : SchedulerState)
    (h : s.runners = []) : (evictExpired now s).runners = [] := by
  simp [evictExpired, h]

/-- Submitting to a runner-less scheduler enqueues below capacity and
rejects at capacity, leaving the registry empty and the capacity bound
unchanged. -/
lemma submit_no_runner (now : Nat) (req : InferenceRequest) (s : SchedulerState)
    (h : s.runners = []) :
    (submit now req s).1.runners = [] ∧
    (submit now req s).1.queueCapacity = s.queueCapacity ∧
    (if s.queue.length < s.queueCapacity then
       (submit now req s).2 = SubmitOutcome.enqueued ∧
       (submit now req s).1.queue = s.queue ++ [req]
     else
       (submit now req s).2 = SubmitOutcome.rejected ∧
       (submit now req s).1.queue = s.queue) := by
  have hr1 : (evictExpired now s).runners = [] := evictExpired_runners_nil now s h
  have hc : dispatcherChoose (evictExpired now s) now req = none :=
    dispatcherChoose_no_runners _ now req hr1
  by_cases hlt : s.queue.length < s.queueCapacity
  · simp [submit, hc, hlt, hr1]
  · simp [submit, hc, hlt, hr1]

/-- Submitting a batch to a runner-less scheduler yields exactly the
expected enqueue/reject outcomes and keeps the first requests that fit. -/
lemma submitSeq_no_runner (now : Nat) :
    ∀ (reqs : List InferenceRequest) (s : SchedulerState), s.runners = [] →
    (submitSeq now reqs s).2 =
      expectedOutcomes s.queue.length s.queueCapacity reqs.length ∧
    (submitSeq now reqs s).1.queue =
      s.queue ++ reqs.take (s.queueCapacity - s.queue.length) := by
  intro reqs
  induction reqs with
  | nil => intro s h; simp [submitSeq, expectedOutcomes]
  | cons r rest ih =>
    intro s h
    obtain ⟨hr1, hcap, hcase⟩ := submit_no_runner now r s h
    by_cases hlt : s.queue.length < s.queueCapacity
    · rw [if_pos hlt] at hcase
      obtain ⟨ho, hq⟩ := hcase
      obtain ⟨ih1, ih2⟩ := ih (submit now r s).1 hr1
      have hql : (submit now r s).1.queue.length = s.queue.length + 1 := by
        simp [hq]
      have htk : s.queueCapacity - s.queue.length =
          (s.queueCapacity - (s.queue.length + 1)) + 1 := by omega
      constructor
      · simp only [submitSeq, ho, ih1, hql, hcap, List.length_cons]
        rw [expectedOutcomes, if_pos hlt]
      · simp only [submitSeq, ih2, hq, hcap, hql]
        rw [htk, List.take_succ_cons, List.append_assoc]
        simp
    · rw [if_neg hlt] at hcase
      obtain ⟨ho, hq⟩ := hcase
      obtain ⟨ih1, ih2⟩ := ih (submit now r s).1 hr1
      have hql : (submit now r s).1.queue.length = s.queue.length := by
        simp [hq]
      have htk : s.queueCapacity - s.queue.length = 0 := by omega
      constructor
      · simp only [submitSeq, ho, ih1, hql, hcap, List.length_cons]
        rw [expectedOutcomes, if_neg hlt]
      · simp only [submitSeq, ih2, hq, hcap, hql]
        rw [htk]
        simp

/-- The expected outcomes for cap = len + n submissions plus one are n
enqueues followed by a single rejection. -/
lemma expectedOutcomes_full : ∀ (n len cap : Nat), cap = len + n →
    expectedOutcomes len cap (n + 1) =
      List.replicate n SubmitOutcome.enqueued ++ [SubmitOutcome.rejected] := by
  intro n
  induction n with
  | zero =>
    intro len cap hcap
    rw [expectedOutcomes, if_neg (by omega)]
    simp [expectedOutcomes]
  | succ k ih =>
    intro len cap hcap
    rw [expectedOutcomes, if_pos (by omega)]
    rw [ih (len + 1) cap (by omega)]
    simp [List.replicate_succ]

/-- One submit either leaves the queue unchanged or appends the request
while below capacity. -/
lemma submit_queue_shape (now : Nat) (req : InferenceRequest) (s : SchedulerState) :
    (submit now req s).1.queue = s.queue ∨
    ((submit now req s).1.queue = s.queue ++ [req] ∧
      s.queue.length < s.queueCapacity) := by
  rcases hc : dispatcherChoose (evictExpired now s) now req with _ | c
  · by_cases hlt : s.queue.length < s.queueCapacity
    · right
      constructor
      · simp [submit, hc, hlt]
      · exact hlt
    · left
      simp [submit, hc, hlt]
  · left
    simp [submit, hc]

/-- C4: the pending queue never exceeds the configured capacity: one
submit preserves the bound; when no runner is eligible and the queue is
at capacity the insert is rejected with a backpressure error and nothing
is dropped from the queue; and submitting N+1 requests to a capacity-N
scheduler with zero eligible runners enqueues exactly the first N and
rejects exactly the last. -/
theorem queue_never_exceeds_capacity (now : Nat) (s : SchedulerState)
    (req : InferenceRequest) (reqs : List InferenceRequest) (N : Nat) :
    (s.queue.length ≤ s.queueCapacity →
      (submit now req s).1.queue.length ≤ s.queueCapacity) ∧
    (listEligible (evictExpired now s) now req = [] →
      s.queue.length = s.queueCapacity →
      (submit now req s).2 = SubmitOutcome.rejected ∧
      (submit now req s).1.queue = s.queue) ∧
    (s.runners = [] → s.queue = [] → s.queueCapacity = N → reqs.length = N + 1 →
      (submitSeq now reqs s).2 =
        List.replicate N SubmitOutcome.enqueued ++ [SubmitOutcome.rejected] ∧
      (submitSeq now reqs s).1.queue = reqs.take N) := by
  refine ⟨?_, ?_, ?_⟩
  · intro hle
    rcases submit_queue_shape now req s with h | ⟨h, hlt⟩
    · rw [h]; exact hle
    · rw [h]; simp; omega
  · intro helig hfull
    have hc : dispatcherChoose (evictExpired now s) now req = none := by
      simp [dispatcherChoose, candidatesFor, helig, chooseMaxSpread]
    have hnlt : ¬ s.queue.length < s.queueCapacity := by omega
    constructor
    · simp [submit, hc, hnlt]
    · simp [submit, hc, hnlt]
  · intro hrun hq hcap hlen
    obtain ⟨h1, h2⟩ := submitSeq_no_runner now reqs s hrun
    rw [hq] at h1 h2
    simp only [List.length_nil] at h1 h2
    constructor
    · rw [h1, hlen, hcap]
      exact expectedOutcomes_full N 0 N (by omega)
    · rw [h2, hcap]
      simp

/-- Witness for C4: capacity 2, three requests, no runners: the first
two are enqueued, the third rejected, and the queue holds the first two. -/
theorem queue_never_exceeds_capacity_witness :
    (submitSeq 0 [exampleRequest "a", exampleRequest "b", exampleRequest "c"]
        exampleEmptyState).2 =
      List.replicate 2 SubmitOutcome.enqueued ++ [SubmitOutcome.rejected] ∧
    (submitSeq 0 [exampleRequest "a", exampleRequest "b", exampleRequest "c"]
        exampleEmptyState).1.queue =
      [exampleRequest "a", exampleRequest "b", exampleRequest "c"].take 2 :=
  (queue_never_exceeds_capacity 0 exampleEmptyState (exampleRequest "a")
    [exampleRequest "a", exampleRequest "b", exampleRequest "c"] 2).2.2
    rfl rfl rfl rfl

/-! ### FIFO drain and no skip-ahead -/

/-- Upserting a runner report does not touch the queue. -/
@[simp] lemma upsertRunner_queue (now : Nat) (rep : RunnerReport)
    (s : SchedulerState) : (upsertRunner now rep s).queue = s.queue := by
  unfold upsertRunner
  split <;> rfl

/-- Upserting a runner report does not touch the slots. -/
@[simp] lemma upsertRunner_slots (now : Nat) (rep : RunnerReport)
    (s : SchedulerState) : (upsertRunner now rep s).slots = s.slots := by
  unfold upsertRunner
  split <;> rfl

/-- Appending a fresh slot adds one undelivered occurrence of its
request id. -/
lemma undelCountL_snoc_mkSlot (l : List Slot) (rid0 : String)
    (req : InferenceRequest) (rid : String) :
    undelCountL (l ++ [mkSlot rid0 req]) rid =
      undelCountL l rid + (if req.requestID == rid then 1 else 0) := by
  simp [undelCountL, List.countP_append, mkSlot, List.countP_cons]

/-- The queue drain places a prefix of the queue, in FIFO order: the
placed ids are exactly the ids of the first k queued requests, the rest
of the queue survives in order, and each placement adds one undelivered
slot for the placed request. -/
lemma drainQueue_spec (now : Nat) : ∀ (fuel : Nat) (s : SchedulerState), ∃ k,
    (drainQueue now fuel s).2 = (s.queue.take k).map (fun r => r.requestID) ∧
    (drainQueue now fuel s).1.queue = s.queue.drop k ∧
    ∀ rid, undelCountL (drainQueue now fuel s).1.slots rid =
      undelCountL s.slots rid +
        (s.queue.take k).countP (fun r => r.requestID == rid) := by
  intro fuel
  induction fuel with
  | zero =>
    intro s
    exact ⟨0, by simp [drainQueue], by simp [drainQueue], by simp [drainQueue]⟩
  | succ fuel ih =>
    intro s
    rcases hq : s.queue with _ | ⟨req, rest⟩
    · exact ⟨0, by simp [drainQueue, hq], by simp [drainQueue, hq],
        by simp [drainQueue, hq]⟩
    · rcases hc : dispatcherChoose s now req with _ | c
      · exact ⟨0, by simp [drainQueue, hq, hc], by simp [drainQueue, hq, hc],
          by simp [drainQueue, hq, hc]⟩
      · obtain ⟨k, h1, h2, h3⟩ := ih (recordDecision
          { s with
            queue := rest,
            slots := s.slots ++ [mkSlot c.runnerID req],
            statuses := setStatus s.statuses req.requestID ReqStatus.dispatched }
          { requestID := req.requestID, outcome := SubmitOutcome.placedOn c.runnerID,
            time := now })
        refine ⟨k + 1, ?_, ?_, ?_⟩
        · simp only [drainQueue, hq, hc]
          simp only [recordDecision_queue] at h1
          simp [hq, h1, List.take_succ_cons]
        · simp only [drainQueue, hq, hc]
          simp only [recordDecision_queue] at h2
          simp [hq, h2, List.drop_succ_cons]
        · intro rid
          have h3r := h3 rid
          simp only [drainQueue, hq, hc]
          simp only [recordDecision_queue, recordDecision_slots] at h3r
          rw [h3r, undelCountL_snoc_mkSlot]
          simp only [hq, List.take_succ_cons, List.countP_cons]
          omega

/-- C5: placement from the pending queue is FIFO with no skip-ahead:
when a runner report makes a runner eligible, the dispatcher places a
prefix of the queue in order, and whenever request B (queued behind A)
is placed in that drain, A was placed first. -/
theorem fifo_placement_no_skip_ahead (now : Nat) (rep : RunnerReport)
    (s : SchedulerState) :
    (∃ k, (updateRunner now rep s).2 = (s.queue.take k).map (fun r => r.requestID) ∧
      (updateRunner now rep s).1.queue = s.queue.drop k) ∧
    (∀ A B rest2, s.queue = A :: B :: rest2 → A.requestID ≠ B.requestID →
      B.requestID ∈ (updateRunner now rep s).2 →
      ∃ tl, (updateRunner now rep s).2 = A.requestID :: B.requestID :: tl) := by
  have hbase : ∃ k,
      (updateRunner now rep s).2 = (s.queue.take k).map (fun r => r.requestID) ∧
      (updateRunner now rep s).1.queue = s.queue.drop k := by
    obtain ⟨k, h1, h2, _⟩ := drainQueue_spec now
      (upsertRunner now rep s).queue.length (upsertRunner now rep s)
    refine ⟨k, ?_, ?_⟩
    · simpa [updateRunner, upsertRunner_queue] using h1
    · simpa [updateRunner, upsertRunner_queue] using h2
  refine ⟨hbase, ?_⟩
  intro A B rest2 hq hAB hmem
  obtain ⟨k, h1, _⟩ := hbase
  rw [hq] at h1
  match k, h1 with
  | 0, h1 =>
    rw [h1] at hmem
    simp at hmem
  | 1, h1 =>
    rw [h1] at hmem
    simp at hmem
    exact absurd hmem.symm hAB
  | k + 2, h1 =>
    refine ⟨((rest2.take k).map (fun r => r.requestID)), ?_⟩
    rw [h1]
    simp [List.take_succ_cons]

/-- Witness for C5: requests a then b are queued; when runner R1
registers, a is placed before b. -/
theorem fifo_placement_no_skip_ahead_witness :
    ∃ tl, (updateRunner 1 exampleReport exampleQueuedState).2 = "a" :: "b" :: tl :=
  (fifo_placement_no_skip_ahead 1 exampleReport exampleQueuedState).2
    (exampleRequest "a") (exampleRequest "b") [] rfl (by decide) (by decide)

/-! ### At-most-one dispatch -/

/-- Completing a request does not touch the queue. -/
@[simp] lemma completeRequest_queue (rid : String) (s : SchedulerState) :
    (completeRequest rid s).queue = s.queue := rfl

/-- Pulling does not touch the queue. -/
@[simp] lemma pullNext_queue (rID fil : String) (s : SchedulerState) :
    (pullNext rID fil s).1.queue = s.queue := rfl

/-- The slots after a pull are the marked slots. -/
lemma pullNext_slots (rID fil : String) (s : SchedulerState) :
    (pullNext rID fil s).1.slots = (markFirstUndelivered s.slots rID fil).1 := rfl

/-- The request returned by a pull is the one found by the marking scan. -/
lemma pullNext_result (rID fil : String) (s : SchedulerState) :
    (pullNext rID fil s).2 = (markFirstUndelivered s.slots rID fil).2 := rfl

/-- Eviction keeps exactly the slots of surviving runners. -/
lemma evictExpired_slots (now : Nat) (s : SchedulerState) :
    (evictExpired now s).slots = s.slots.filter (fun sl =>
      !((s.runners.filter (heartbeatExpired s.runnerTTL now)).any
        (fun r => r.id == sl.runnerID))) := rfl

/-- Completing a request filters out its slots. -/
lemma completeRequest_slots (rid : String) (s : SchedulerState) :
    (completeRequest rid s).slots =
      s.slots.filter (fun sl => !(sl.request.requestID == rid)) := rfl

/-- Filtering a slot list cannot increase the undelivered count. -/
lemma undelCountL_filter_le (p : Slot → Bool) (l : List Slot) (rid : String) :
    undelCountL (l.filter p) rid ≤ undelCountL l rid := by
  unfold undelCountL
  rw [List.countP_filter]
  apply List.countP_mono_left
  intro a _ h
  simp only [Bool.and_eq_true] at h
  simp only [Bool.and_eq_true]
  exact h.1

/-- The empty id list counts zero. -/
@[simp] lemma idCount_nil (rid : String) : idCount rid [] = 0 := rfl

/-- A singleton id list counts one exactly on a match. -/
@[simp] lemma idCount_singleton (rid x : String) :
    idCount rid [x] = if x == rid then 1 else 0 := by
  simp [idCount, List.countP_cons]

/-- Counting placed ids equals counting matching requests. -/
lemma idCount_map_requestID (l : List InferenceRequest) (rid : String) :
    idCount rid (l.map (fun r => r.requestID)) =
      l.countP (fun r => r.requestID == rid) := by
  unfold idCount
  rw [List.countP_map]
  rfl

/-- A countP splits across take and drop. -/
lemma countP_take_add_drop (p : InferenceRequest → Bool) (k : Nat)
    (l : List InferenceRequest) :
    (l.take k).countP p + (l.drop k).countP p = l.countP p := by
  have h := congrArg (List.countP p) (List.take_append_drop k l)
  rw [List.countP_append] at h
  exact h

/-- A drain conserves queued-plus-created occurrences of every id. -/
lemma drain_creations (now fuel : Nat) (s1 : SchedulerState) (rid : String) :
    idCount rid (drainQueue now fuel s1).2 + qCount (drainQueue now fuel s1).1 rid
      = qCount s1 rid := by
  obtain ⟨k, h1, h2, _⟩ := drainQueue_spec now fuel s1
  unfold qCount
  rw [h1, h2, idCount_map_requestID]
  exact countP_take_add_drop _ k s1.queue

/-- A drain adds exactly its placements to the undelivered count. -/
lemma drain_undel (now fuel : Nat) (s1 : SchedulerState) (rid : String) :
    undelCount (drainQueue now fuel s1).1 rid =
      undelCount s1 rid + idCount rid (drainQueue now fuel s1).2 := by
  obtain ⟨k, h1, _, h3⟩ := drainQueue_spec now fuel s1
  rw [h1, idCount_map_requestID]
  exact h3 rid

/-- Marking the first undelivered slot hands over exactly one
undelivered occurrence of the returned request. -/
lemma markFirstUndelivered_spec (slots : List Slot) (rID fil rid : String) :
    (match (markFirstUndelivered slots rID fil).2 with
      | some rq => if rq.requestID == rid then 1 else 0
      | none => 0) + undelCountL (markFirstUndelivered slots rID fil).1 rid
    = undelCountL slots rid := by
  induction slots with
  | nil => simp [markFirstUndelivered, undelCountL]
  | cons sl rest ih =>
    by_cases hcond : sl.runnerID = rID ∧ sl.delivered = false ∧
        filterAccepts fil sl.request
    · simp only [markFirstUndelivered, if_pos hcond]
      simp only [undelCountL, List.countP_cons]
      have hnd : sl.delivered = false := hcond.2.1
      by_cases hb : sl.request.requestID == rid
      · simp [hnd, hb]
        omega
      · simp [hnd, hb]
    · simp only [markFirstUndelivered, if_neg hcond]
      simp only [undelCountL, List.countP_cons] at ih ⊢
      omega

/-- One step conserves the submitted bound on created slots: the slots
created in the step plus the surviving queued occurrences are covered by
the prior queued occurrences plus the step's submissions. -/
lemma step_creations (s : SchedulerState) (e : SchedEvent) (rid : String) :
    idCount rid (stepEv s e).created + qCount (stepEv s e).state rid ≤
      qCount s rid + eventSubmits rid e := by
  cases e with
  | submitEv now req =>
    have hsing : idCount rid [req.requestID] =
        if req.requestID = rid then 1 else 0 := by
      by_cases hb : req.requestID = rid <;> simp [hb]
    rcases hc : dispatcherChoose (evictExpired now s) now req with _ | c
    · by_cases hlt : s.queue.length < s.queueCapacity
      · have ho : (submit now req s).2 = SubmitOutcome.enqueued := by
          simp [submit, hc, hlt]
        have hqe : (submit now req s).1.queue = s.queue ++ [req] := by
          simp [submit, hc, hlt]
        have hq2 : qCount (submit now req s).1 rid =
            qCount s rid + (if req.requestID = rid then 1 else 0) := by
          unfold qCount
          rw [hqe, List.countP_append]
          by_cases hb : req.requestID = rid <;>
            simp [List.countP_cons, beq_iff_eq, hb]
        simp only [stepEv, ho, eventSubmits, idCount_nil]
        omega
      · have ho : (submit now req s).2 = SubmitOutcome.rejected := by
          simp [submit, hc, hlt]
        have hqe : (submit now req s).1.queue = s.queue := by
          simp [submit, hc, hlt]
        have hq2 : qCount (submit now req s).1 rid = qCount s rid := by
          unfold qCount
          rw [hqe]
        simp only [stepEv, ho, eventSubmits, idCount_nil]
        omega
    · have ho : (submit now req s).2 = SubmitOutcome.placedOn c.runnerID := by
        simp [submit, hc]
      have hqe : (submit now req s).1.queue = s.queue := by
        simp [submit, hc]
      have hq2 : qCount (submit now req s).1 rid = qCount s rid := by
        unfold qCount
        rw [hqe]
      simp only [stepEv, ho, eventSubmits]
      omega
  | updateEv now rep =>
    have h := drain_creations now (upsertRunner now rep s).queue.length
      (upsertRunner now rep s) rid
    have hq2 : qCount (upsertRunner now rep s) rid = qCount s rid := by
      unfold qCount
      rw [upsertRunner_queue]
    simp only [stepEv, updateRunner, eventSubmits]
    omega
  | evictEv now =>
    have h := drain_creations now (evictExpired now s).queue.length
      (evictExpired now s) rid
    have hq2 : qCount (evictExpired now s) rid = qCount s rid := by
      unfold qCount
      rw [evictExpired_queue]
    simp only [stepEv, eventSubmits]
    omega
  | completeEv now rid0 =>
    have h := drain_creations now (completeRequest rid0 s).queue.length
      (completeRequest rid0 s) rid
    have hq2 : qCount (completeRequest rid0 s) rid = qCount s rid := by
      unfold qCount
      rw [completeRequest_queue]
    simp only [stepEv, eventSubmits]
    omega
  | pullEv rID fil =>
    have hq2 : qCount (pullNext rID fil s).1 rid = qCount s rid := by
      unfold qCount
      rw [pullNext_queue]
    simp only [stepEv, eventSubmits, idCount_nil]
    omega

/-- One step conserves the created bound on pulls: ids handed to a
runner plus remaining undelivered occurrences are covered by the prior
undelivered occurrences plus the step's slot creations. -/
lemma step_pulls (s : SchedulerState) (e : SchedEvent) (rid : String) :
    idCount rid (stepEv s e).pulled + undelCount (stepEv s e).state rid ≤
      undelCount s rid + idCount rid (stepEv s e).created := by
  cases e with
  | submitEv now req =>
    have hevle : undelCountL (evictExpired now s).slots rid ≤ undelCount s rid := by
      unfold undelCount
      rw [evictExpired_slots]
      exact undelCountL_filter_le _ _ _
    rcases hc : dispatcherChoose (evictExpired now s) now req with _ | c
    · by_cases hlt : s.queue.length < s.queueCapacity
      · have ho : (submit now req s).2 = SubmitOutcome.enqueued := by
          simp [submit, hc, hlt]
        have hu2 : undelCount (submit now req s).1 rid =
            undelCountL (evictExpired now s).slots rid := by
          unfold undelCount
          congr 1
          simp [submit, hc, hlt]
        simp only [stepEv, ho, idCount_nil]
        omega
      · have ho : (submit now req s).2 = SubmitOutcome.rejected := by
          simp [submit, hc, hlt]
        have hu2 : undelCount (submit now req s).1 rid =
            undelCountL (evictExpired now s).slots rid := by
          unfold undelCount
          congr 1
          simp [submit, hc, hlt]
        simp only [stepEv, ho, idCount_nil]
        omega
    · have ho : (submit now req s).2 = SubmitOutcome.placedOn c.runnerID := by
        simp [submit, hc]
      have hsl : (submit now req s).1.slots =
          (evictExpired now s).slots ++ [mkSlot c.runnerID req] := by
        simp [submit, hc]
      have hu2 : undelCount (submit now req s).1 rid =
          undelCountL (evictExpired now s).slots rid +
            (if req.requestID == rid then 1 else 0) := by
        unfold undelCount
        rw [hsl, undelCountL_snoc_mkSlot]
      have hsing : idCount rid [req.requestID] =
          if req.requestID == rid then 1 else 0 := idCount_singleton rid _
      simp only [stepEv, ho, idCount_nil]
      omega
  | updateEv now rep =>
    have h := drain_undel now (upsertRunner now rep s).queue.length
      (upsertRunner now rep s) rid
    have hu2 : undelCount (upsertRunner now rep s) rid = undelCount s rid := by
      unfold undelCount
      rw [upsertRunner_slots]
    simp only [stepEv, updateRunner, idCount_nil]
    omega
  | evictEv now =>
    have h := drain_undel now (evictExpired now s).queue.length
      (evictExpired now s) rid
    have hu2 : undelCount (evictExpired now s) rid ≤ undelCount s rid := by
      unfold undelCount
      rw [evictExpired_slots]
      exact undelCountL_filter_le _ _ _
    simp only [stepEv, idCount_nil]
    omega
  | completeEv now rid0 =>
    have h := drain_undel now (completeRequest rid0 s).queue.length
      (completeRequest rid0 s) rid
    have hu2 : undelCount (completeRequest rid0 s) rid ≤ undelCount s rid := by
      unfold undelCount
      rw [completeRequest_slots]
      exact undelCountL_filter_le _ _ _
    simp only [stepEv, idCount_nil]
    omega
  | pullEv rID fil =>
    have hspec := markFirstUndelivered_spec s.slots rID fil rid
    have hu2 : undelCount (pullNext rID fil s).1 rid =
        undelCountL (markFirstUndelivered s.slots rID fil).1 rid := by
      unfold undelCount
      rw [pullNext_slots]
    have hus : undelCount s rid = undelCountL s.slots rid := rfl
    rcases hp2 : (markFirstUndelivered s.slots rID fil).2 with _ | rq
    · rw [hp2] at hspec
      simp only at hspec
      simp only [stepEv, pullNext_result, hp2, idCount_nil]
      omega
    · rw [hp2] at hspec
      simp only at hspec
      have hsing : idCount rid [rq.requestID] =
          if rq.requestID == rid then 1 else 0 := idCount_singleton rid _
      simp only [stepEv, pullNext_result, hp2, idCount_nil]
      omega

/-- Along a trace, slot creations for an id are bounded by its queued
occurrences plus its submissions. -/
lemma trace_creations_le (rid : String) : ∀ (evs : List SchedEvent)
    (s : SchedulerState),
    traceCreations rid s evs ≤ qCount s rid + traceSubmits rid evs := by
  intro evs
  induction evs with
  | nil => intro s; simp [traceCreations, traceSubmits]
  | cons e rest ih =>
    intro s
    have h1 := step_creations s e rid
    have h2 := ih (stepEv s e).state
    simp only [traceCreations, traceSubmits]
    omega

/-- Along a trace, pulls of an id are bounded by its undelivered
occurrences plus its slot creations. -/
lemma trace_pulls_le (rid : String) : ∀ (evs : List SchedEvent)
    (s : SchedulerState),
    tracePulls rid s evs ≤ undelCount s rid + traceCreations rid s evs := by
  intro evs
  induction evs with
  | nil => intro s; simp [tracePulls, traceCreations]
  | cons e rest ih =>
    intro s
    have h1 := step_pulls s e rid
    have h2 := ih (stepEv s e).state
    simp only [tracePulls, traceCreations]
    omega

/-- C1: starting from a state in which a request identity is neither
queued nor sitting in an undelivered slot, if the identity is submitted
at most once along a trace (no caller retry under the same identity),
then at most one slot is ever created for it and pullNext hands it to at
most one pull call. -/
theorem at_most_one_dispatch (s0 : SchedulerState) (evs : List SchedEvent)
    (rid : String)
    (hq : qCount s0 rid = 0) (hu : undelCount s0 rid = 0)
    (hsub : traceSubmits rid evs ≤ 1) :
    traceCreations rid s0 evs ≤ 1 ∧ tracePulls rid s0 evs ≤ 1 := by
  have h1 := trace_creations_le rid evs s0
  have h2 := trace_pulls_le rid evs s0
  omega

/-- Witness for C1: on the concrete trace register-submit-pull, request
"a" is dispatched once and pulled once, never twice. -/
theorem at_most_one_dispatch_witness :
    qCount exampleEmptyState "a" = 0 ∧ undelCount exampleEmptyState "a" = 0 ∧
    traceSubmits "a" witnessTrace = 1 ∧
    traceCreations "a" exampleEmptyState witnessTrace ≤ 1 ∧
    tracePulls "a" exampleEmptyState witnessTrace ≤ 1 :=
  ⟨by decide, by decide, by decide,
   (at_most_one_dispatch exampleEmptyState witnessTrace "a"
      (by decide) (by decide) (by decide)).1,
   (at_most_one_dispatch exampleEmptyState witnessTrace "a"
      (by decide) (by decide) (by decide)).2⟩

end Helix
